import Mathlib

/-!
Shallow embedding of `WFC/Source/WFC/WaveFunctionCollapseComponent.{h,cpp}`
(a wave-function-collapse grid generator for UE5), together with theorems
settling the specification claims about it.

Modelling conventions:
* `TArray<int32>` becomes `List Nat` (tile indices) or `List FCell`;
  `TMap<ETileEdgeType, ETileEdgeType>` becomes an association list
  (`TMap` keys are unique; `find` is first-match lookup).
* `int32` values that can be negative (cell indices, `FinalState`, the
  `-1` sentinel, the `TNumericLimits<int32>::Max()` sentinel) become `Int`;
  counters and sizes that are provably non-negative become `Nat`.
* The engine randomness `FMath::RandRange(0, n-1)` is external engine code,
  not part of this repository.  Modelled from the spec: a seedable injected
  randomness source, given as a stream `rng : Nat → Nat` consumed at an
  explicit call counter; `RandRange(0, n-1)` is `rng k % n`, which is always
  in range `[0, n-1]` as the engine guarantees.
* `UStaticMesh*` payloads and mesh spawning are never inspected by the
  core algorithm and are omitted.
-/

/-- `ETileEdgeType`: the closed enum of edge connector types. -/
inductive ETileEdgeType where
  | typeA
  | typeB
  | typeC
  | typeD
  deriving DecidableEq, Repr

/-- `FTileType`: the four directional edge labels of a tile
(the opaque mesh payload is omitted; the core never inspects it). -/
structure FTileType where
  northEdge : ETileEdgeType
  eastEdge : ETileEdgeType
  southEdge : ETileEdgeType
  westEdge : ETileEdgeType
  deriving DecidableEq, Repr

/-- Default-constructed `FTileType`: every edge is `Type_A`. -/
instance : Inhabited FTileType :=
  ⟨⟨ETileEdgeType.typeA, ETileEdgeType.typeA, ETileEdgeType.typeA, ETileEdgeType.typeA⟩⟩

/-- `FCell`: one grid cell's solver state. -/
structure FCell where
  possibleStates : List Nat
  bIsCollapsed : Bool
  finalState : Int
  deriving DecidableEq, Repr

/-- Default-constructed `FCell`: empty candidate list, not collapsed,
`FinalState = -1`. -/
instance : Inhabited FCell := ⟨⟨[], false, -1⟩⟩

/-- The configuration fields of `UWaveFunctionCollapseComponent` read by the
core algorithm: grid dimensions, tile catalog, and edge-compatibility table. -/
structure WFCConfig where
  gridWidth : Nat
  gridHeight : Nat
  tileTypes : List FTileType
  compatibleEdges : List (ETileEdgeType × ETileEdgeType)

/-- `TMap::Find`: first-match lookup in the association list. -/
def findEdge (tbl : List (ETileEdgeType × ETileEdgeType)) (e : ETileEdgeType) :
    Option ETileEdgeType :=
  match tbl.find? (fun p => p.1 == e) with
  | some p => some p.2
  | none => none

/-- `AreEdgesCompatible`: true iff the table maps `e1` to `e2`
(only the forward mapping of the first argument is consulted). -/
def areEdgesCompatible (tbl : List (ETileEdgeType × ETileEdgeType))
    (e1 e2 : ETileEdgeType) : Bool :=
  match findEdge tbl e1 with
  | some c => c == e2
  | none => false

/-- `TArray::AddUnique`: append `x` iff it is not already present. -/
def addUnique (l : List Nat) (x : Nat) : List Nat :=
  if l.contains x then l else l ++ [x]

/-- `UpdateCellPossibilities`: filter the cell's candidate list by the allowed
list; keep the old list if the filtered list is empty; collapse the cell when
the kept filtered list has exactly one element; report whether the candidate
count changed.  Returns the updated grid and the changed flag. -/
def updateCellPossibilities (g : List FCell) (cellIndex : Int)
    (allowedStates : List Nat) : List FCell × Bool :=
  if cellIndex < 0 ∨ (g.length : Int) ≤ cellIndex then (g, false)
  else if (g.getD cellIndex.toNat default).bIsCollapsed = true then (g, false)
  else if 0 < ((g.getD cellIndex.toNat default).possibleStates.filter
      (fun s => allowedStates.contains s)).length then
    if ((g.getD cellIndex.toNat default).possibleStates.filter
        (fun s => allowedStates.contains s)).length = 1 then
      (g.set cellIndex.toNat
        { g.getD cellIndex.toNat default with
            possibleStates := (g.getD cellIndex.toNat default).possibleStates.filter
              (fun s => allowedStates.contains s),
            finalState := ((((g.getD cellIndex.toNat default).possibleStates.filter
              (fun s => allowedStates.contains s)).headD 0 : Nat) : Int),
            bIsCollapsed := true },
        decide ((g.getD cellIndex.toNat default).possibleStates.length
          ≠ ((g.getD cellIndex.toNat default).possibleStates.filter
              (fun s => allowedStates.contains s)).length))
    else
      (g.set cellIndex.toNat
        { g.getD cellIndex.toNat default with
            possibleStates := (g.getD cellIndex.toNat default).possibleStates.filter
              (fun s => allowedStates.contains s) },
        decide ((g.getD cellIndex.toNat default).possibleStates.length
          ≠ ((g.getD cellIndex.toNat default).possibleStates.filter
              (fun s => allowedStates.contains s)).length))
  else
    (g, decide ((g.getD cellIndex.toNat default).possibleStates.length
      ≠ (g.getD cellIndex.toNat default).possibleStates.length))

/-- The allowed-state list `PropagateConstraints` computes for one neighbor:
for every remaining candidate of the current cell, every tile whose
opposite-facing edge is compatible with the candidate's facing edge is
added (`AddUnique`) to the accumulator. -/
def collectAllowed (cfg : WFCConfig) (curStates : List Nat)
    (edgeOfCur edgeOfNeighbor : FTileType → ETileEdgeType) : List Nat :=
  curStates.foldl (fun acc stateIndex =>
    let curEdge := edgeOfCur (cfg.tileTypes.getD stateIndex default)
    (List.range cfg.tileTypes.length).foldl (fun acc2 i =>
      if areEdgesCompatible cfg.compatibleEdges curEdge
          (edgeOfNeighbor (cfg.tileTypes.getD i default)) then
        addUnique acc2 i
      else acc2) acc) []

/-- One neighbor block of `PropagateConstraints`: compute the allowed list
from the current cell's candidates, update the neighbor, and enqueue it
(`AddUnique`) iff the update reported a change. -/
def processNeighbor (cfg : WFCConfig) (currentIndex neighborIndex : Nat)
    (edgeOfCur edgeOfNeighbor : FTileType → ETileEdgeType)
    (gq : List FCell × List Nat) : List FCell × List Nat :=
  let allowed := collectAllowed cfg (gq.1.getD currentIndex default).possibleStates
    edgeOfCur edgeOfNeighbor
  let r := updateCellPossibilities gq.1 (neighborIndex : Int) allowed
  (r.1, if r.2 then addUnique gq.2 neighborIndex else gq.2)

/-- A guarded neighbor block: run `processNeighbor` iff the neighbor is
in bounds. -/
def stepDir (cfg : WFCConfig) (cond : Bool) (currentIndex neighborIndex : Nat)
    (edgeOfCur edgeOfNeighbor : FTileType → ETileEdgeType)
    (gq : List FCell × List Nat) : List FCell × List Nat :=
  if cond then processNeighbor cfg currentIndex neighborIndex edgeOfCur edgeOfNeighbor gq
  else gq

/-- The body of one iteration of the `PropagateConstraints` worklist loop:
process the North, East, South, West neighbors of cell `cur` in source order
(`IndexToXY` gives `x = cur % width`, `y = cur / width`). -/
def processCell (cfg : WFCConfig) (g : List FCell) (q : List Nat) (cur : Nat) :
    List FCell × List Nat :=
  let x := cur % cfg.gridWidth
  let y := cur / cfg.gridWidth
  stepDir cfg (decide (0 < x)) cur (y * cfg.gridWidth + (x - 1))
    FTileType.westEdge FTileType.eastEdge
    (stepDir cfg (decide (y + 1 < cfg.gridHeight)) cur ((y + 1) * cfg.gridWidth + x)
      FTileType.southEdge FTileType.northEdge
      (stepDir cfg (decide (x + 1 < cfg.gridWidth)) cur (y * cfg.gridWidth + (x + 1))
        FTileType.eastEdge FTileType.westEdge
        (stepDir cfg (decide (0 < y)) cur ((y - 1) * cfg.gridWidth + x)
          FTileType.northEdge FTileType.southEdge (g, q))))

/-- Total number of remaining candidates over the whole grid, the termination
measure of the propagation worklist loop. -/
def totalPoss (g : List FCell) : Nat :=
  (g.map (fun c => c.possibleStates.length)).sum

lemma totalPoss_cons (c : FCell) (g : List FCell) :
    totalPoss (c :: g) = c.possibleStates.length + totalPoss g := by
  simp [totalPoss]

lemma getD_set_self (l : List FCell) (i : Nat) (a : FCell) (h : i < l.length) :
    (l.set i a).getD i default = a := by
  induction l generalizing i with
  | nil => simp at h
  | cons hd tl ih =>
    cases i with
    | zero => rfl
    | succ n =>
      have hn : n < tl.length := by simpa using h
      simpa using ih n hn

lemma getD_set_ne (l : List FCell) (i j : Nat) (a : FCell) (h : i ≠ j) :
    (l.set i a).getD j default = l.getD j default := by
  induction l generalizing i j with
  | nil => simp
  | cons hd tl ih =>
    cases i with
    | zero =>
      cases j with
      | zero => exact absurd rfl h
      | succ m => simp
    | succ n =>
      cases j with
      | zero => simp
      | succ m => simpa using ih n m (by omega)

lemma totalPoss_set (g : List FCell) (i : Nat) (c : FCell) (h : i < g.length) :
    totalPoss (g.set i c) + (g.getD i default).possibleStates.length
      = totalPoss g + c.possibleStates.length := by
  induction g generalizing i with
  | nil => simp at h
  | cons hd tl ih =>
    cases i with
    | zero =>
      simp [totalPoss_cons]
      omega
    | succ n =>
      have hn : n < tl.length := by simpa using h
      have hrec := ih n hn
      simp [totalPoss_cons] at hrec ⊢
      omega

lemma totalPoss_set_le (g : List FCell) (i : Nat) (c : FCell) (h : i < g.length)
    (hle : c.possibleStates.length ≤ (g.getD i default).possibleStates.length) :
    totalPoss (g.set i c) ≤ totalPoss g := by
  have := totalPoss_set g i c h
  omega

lemma totalPoss_set_lt (g : List FCell) (i : Nat) (c : FCell) (h : i < g.length)
    (hlt : c.possibleStates.length < (g.getD i default).possibleStates.length) :
    totalPoss (g.set i c) < totalPoss g := by
  have := totalPoss_set g i c h
  omega

lemma totalPoss_set_eq (g : List FCell) (i : Nat) (c : FCell) (h : i < g.length)
    (heq : c.possibleStates.length = (g.getD i default).possibleStates.length) :
    totalPoss (g.set i c) = totalPoss g := by
  have := totalPoss_set g i c h
  omega

/-- Combined size accounting for one `UpdateCellPossibilities` call: the total
candidate count never grows, shrinks strictly if the changed flag is true,
and is unchanged if the flag is false. -/
lemma upd_total (g : List FCell) (ci : Int) (a : List Nat) :
    totalPoss (updateCellPossibilities g ci a).1 ≤ totalPoss g
    ∧ ((updateCellPossibilities g ci a).2 = true →
        totalPoss (updateCellPossibilities g ci a).1 < totalPoss g)
    ∧ ((updateCellPossibilities g ci a).2 = false →
        totalPoss (updateCellPossibilities g ci a).1 = totalPoss g) := by
  unfold updateCellPossibilities
  split
  · simp
  next h1 =>
    split
    · simp
    next h2 =>
      have hlt : ci.toNat < g.length := by omega
      have hfl : ((g.getD ci.toNat default).possibleStates.filter
          (fun s => a.contains s)).length
          ≤ (g.getD ci.toNat default).possibleStates.length :=
        List.length_filter_le _ _
      split
      next h3 =>
        split
        next h4 =>
          dsimp only
          refine ⟨totalPoss_set_le g ci.toNat _ hlt ?_, ?_, ?_⟩
          · exact hfl
          · intro hc
            have hne := of_decide_eq_true hc
            exact totalPoss_set_lt g ci.toNat _ hlt (by dsimp only; omega)
          · intro hc
            have heq := of_decide_eq_false hc
            have heq2 : (g.getD ci.toNat default).possibleStates.length
                = ((g.getD ci.toNat default).possibleStates.filter
                    (fun s => a.contains s)).length := not_ne_iff.mp heq
            exact totalPoss_set_eq g ci.toNat _ hlt (by dsimp only; omega)
        next h4 =>
          dsimp only
          refine ⟨totalPoss_set_le g ci.toNat _ hlt ?_, ?_, ?_⟩
          · exact hfl
          · intro hc
            have hne := of_decide_eq_true hc
            exact totalPoss_set_lt g ci.toNat _ hlt (by dsimp only; omega)
          · intro hc
            have heq := of_decide_eq_false hc
            have heq2 : (g.getD ci.toNat default).possibleStates.length
                = ((g.getD ci.toNat default).possibleStates.filter
                    (fun s => a.contains s)).length := not_ne_iff.mp heq
            exact totalPoss_set_eq g ci.toNat _ hlt (by dsimp only; omega)
      next h3 => simp

lemma length_addUnique (l : List Nat) (x : Nat) :
    (addUnique l x).length ≤ l.length + 1 := by
  unfold addUnique
  split <;> simp

lemma processNeighbor_bound (cfg : WFCConfig) (ci ni : Nat)
    (eC eN : FTileType → ETileEdgeType) (g : List FCell) (q : List Nat) :
    totalPoss (processNeighbor cfg ci ni eC eN (g, q)).1 +
      (processNeighbor cfg ci ni eC eN (g, q)).2.length ≤ totalPoss g + q.length := by
  have h := upd_total g (ni : Int)
    (collectAllowed cfg (g.getD ci default).possibleStates eC eN)
  by_cases hc : (updateCellPossibilities g (ni : Int)
      (collectAllowed cfg (g.getD ci default).possibleStates eC eN)).2 = true
  · have hlt := h.2.1 hc
    have hlen := length_addUnique q ni
    simp only [processNeighbor, hc, if_true]
    omega
  · have hff : (updateCellPossibilities g (ni : Int)
        (collectAllowed cfg (g.getD ci default).possibleStates eC eN)).2 = false := by
      simpa using hc
    have heq := h.2.2 hff
    simp only [processNeighbor, hff, if_false, Bool.false_eq_true]
    omega

lemma stepDir_bound (cfg : WFCConfig) (cond : Bool) (ci ni : Nat)
    (eC eN : FTileType → ETileEdgeType) (gq : List FCell × List Nat) :
    totalPoss (stepDir cfg cond ci ni eC eN gq).1 +
      (stepDir cfg cond ci ni eC eN gq).2.length
      ≤ totalPoss gq.1 + gq.2.length := by
  obtain ⟨g, q⟩ := gq
  unfold stepDir
  split
  · exact processNeighbor_bound cfg ci ni eC eN g q
  · exact le_refl _

lemma processCell_bound (cfg : WFCConfig) (g : List FCell) (q : List Nat)
    (cur : Nat) :
    totalPoss (processCell cfg g q cur).1 + (processCell cfg g q cur).2.length
      ≤ totalPoss g + q.length := by
  simp only [processCell]
  exact le_trans (stepDir_bound _ _ _ _ _ _ _)
    (le_trans (stepDir_bound _ _ _ _ _ _ _)
      (le_trans (stepDir_bound _ _ _ _ _ _ _) (stepDir_bound _ _ _ _ _ _ _)))

/-- The `PropagateConstraints` worklist loop: pop the front cell, process its
four neighbors, repeat until the queue is empty.  Terminates without any
external cap because every enqueue coincides with a strict shrink of some
cell's candidate list. -/
def propagateLoop (cfg : WFCConfig) (g : List FCell) (q : List Nat) :
    List FCell :=
  match q with
  | [] => g
  | cur :: rest =>
    propagateLoop cfg (processCell cfg g rest cur).1 (processCell cfg g rest cur).2
termination_by totalPoss g + q.length
decreasing_by
  have h := processCell_bound cfg g rest cur
  simp only [List.length_cons]
  omega

/-- A fuel-indexed mirror of `propagateLoop`, used to state that the worklist
loop needs no external iteration cap: with fuel exceeding
`totalPoss g + q.length` it always completes (returns `some`). -/
def propagateLoopFuel (cfg : WFCConfig) :
    Nat → List FCell → List Nat → Option (List FCell)
  | 0, _, _ => none
  | _ + 1, g, [] => some g
  | fuel + 1, g, cur :: rest =>
    propagateLoopFuel cfg fuel (processCell cfg g rest cur).1
      (processCell cfg g rest cur).2

/-- `PropagateConstraints`: bounds-check the origin, then run the worklist
loop seeded with it. -/
def propagateConstraints (cfg : WFCConfig) (g : List FCell) (cellIndex : Int) :
    List FCell :=
  if cellIndex < 0 ∨ (g.length : Int) ≤ cellIndex then g
  else propagateLoop cfg g [cellIndex.toNat]

/-- The scan loop of `FindCellWithLowestEntropy`: walk the cells with a
running best index (initially `-1`) and best entropy (initially
`TNumericLimits<int32>::Max()`), taking every strict improvement among
non-collapsed cells with a positive candidate count. -/
def findLoop : List FCell → Nat → Int → Int → Int
  | [], _, bestIdx, _ => bestIdx
  | c :: rest, i, bestIdx, bestEnt =>
    if c.bIsCollapsed = false ∧ 0 < c.possibleStates.length
        ∧ (c.possibleStates.length : Int) < bestEnt then
      findLoop rest (i + 1) (i : Int) (c.possibleStates.length : Int)
    else
      findLoop rest (i + 1) bestIdx bestEnt

/-- `TNumericLimits<int32>::Max()`. -/
def int32Max : Int := 2147483647

/-- `FindCellWithLowestEntropy`: index of the first non-collapsed cell with
the smallest positive candidate count, or `-1` if there is none. -/
def findCellWithLowestEntropy (g : List FCell) : Int :=
  findLoop g 0 (-1) int32Max

/-- `CollapseCell`: no-op on an out-of-range index, a collapsed cell, or a
cell with no candidates; otherwise pick a random candidate (the engine
randomness is modelled as the stream `rng` at call counter `k`), make it the
sole candidate and the final state, and mark the cell collapsed.  Returns the
updated grid and the advanced call counter. -/
def collapseCell (rng : Nat → Nat) (g : List FCell) (k : Nat)
    (cellIndex : Int) : List FCell × Nat :=
  if cellIndex < 0 ∨ (g.length : Int) ≤ cellIndex then (g, k)
  else if (g.getD cellIndex.toNat default).bIsCollapsed = true
      ∨ (g.getD cellIndex.toNat default).possibleStates.length = 0 then (g, k)
  else
    (g.set cellIndex.toNat
      { g.getD cellIndex.toNat default with
          possibleStates := [(g.getD cellIndex.toNat default).possibleStates.getD
            (rng k % (g.getD cellIndex.toNat default).possibleStates.length) 0],
          finalState := (((g.getD cellIndex.toNat default).possibleStates.getD
            (rng k % (g.getD cellIndex.toNat default).possibleStates.length) 0 : Nat) : Int),
          bIsCollapsed := true },
      k + 1)

/-- `IsGridFullyCollapsed`: every cell's collapsed flag is true. -/
def isGridFullyCollapsed (g : List FCell) : Bool :=
  g.all (fun c => c.bIsCollapsed)

/-- Grid initialization in `GenerateGrid`: `width*height` cells, each with
every tile index as a candidate, not collapsed (`FinalState` keeps its
default-constructed `-1`). -/
def initGrid (cfg : WFCConfig) : List FCell :=
  List.replicate (cfg.gridWidth * cfg.gridHeight)
    { possibleStates := List.range cfg.tileTypes.length,
      bIsCollapsed := false,
      finalState := -1 }

/-- The main solve loop of `GenerateGrid`: while the grid is not fully
collapsed and the iteration counter is below the cap, select the lowest
entropy cell (exit on `-1`), collapse it, and propagate from it.  Returns the
final grid, the iteration count, and the randomness call counter. -/
def solveLoop (cfg : WFCConfig) (rng : Nat → Nat) (g : List FCell) (k : Nat)
    (iterCount maxIter : Nat) : List FCell × Nat × Nat :=
  if isGridFullyCollapsed g = true ∨ maxIter ≤ iterCount then (g, iterCount, k)
  else if findCellWithLowestEntropy g = -1 then (g, iterCount, k)
  else
    solveLoop cfg rng
      (propagateConstraints cfg
        (collapseCell rng g k (findCellWithLowestEntropy g)).1
        (findCellWithLowestEntropy g))
      (collapseCell rng g k (findCellWithLowestEntropy g)).2
      (iterCount + 1) maxIter
termination_by maxIter - iterCount
decreasing_by omega

/-- The observable outcome of one `GenerateGrid` call: the grid, the number
of loop iterations used, whether the max-iteration warning was emitted, and
the randomness call counter. -/
structure GenResult where
  grid : List FCell
  iterations : Nat
  warned : Bool
  rngCounter : Nat
  deriving DecidableEq

/-- The four cardinal directions, used to tag which edge of a tile lacks a
compatibility rule. -/
inductive EDirection where
  | north
  | east
  | south
  | west
  deriving DecidableEq, Repr

/-- One defect reported (as a warning log) by `ValidateEdgeRules`. -/
inductive Defect where
  | emptyCatalog : Defect
  | missingEdgeRule : Nat → EDirection → Defect
  | asymmetric : ETileEdgeType → ETileEdgeType → Defect
  deriving DecidableEq, Repr

/-- The edge label a tile exposes in a direction. -/
def edgeOfDir (t : FTileType) (d : EDirection) : ETileEdgeType :=
  match d with
  | EDirection.north => t.northEdge
  | EDirection.east => t.eastEdge
  | EDirection.south => t.southEdge
  | EDirection.west => t.westEdge

/-- `TMap::Contains`. -/
def containsKey (tbl : List (ETileEdgeType × ETileEdgeType))
    (e : ETileEdgeType) : Bool :=
  (findEdge tbl e).isSome

/-- The missing-edge-rule defects `ValidateEdgeRules` logs for one tile,
in source order North, East, South, West. -/
def tileEdgeDefects (tbl : List (ETileEdgeType × ETileEdgeType)) (i : Nat)
    (t : FTileType) : List Defect :=
  (if containsKey tbl t.northEdge then [] else [Defect.missingEdgeRule i EDirection.north]) ++
  (if containsKey tbl t.eastEdge then [] else [Defect.missingEdgeRule i EDirection.east]) ++
  (if containsKey tbl t.southEdge then [] else [Defect.missingEdgeRule i EDirection.south]) ++
  (if containsKey tbl t.westEdge then [] else [Defect.missingEdgeRule i EDirection.west])

/-- All missing-edge-rule defects over the catalog, in scan order. -/
def catalogDefects (tbl : List (ETileEdgeType × ETileEdgeType))
    (tiles : List FTileType) : List Defect :=
  (List.range tiles.length).flatMap (fun i => tileEdgeDefects tbl i (tiles.getD i default))

/-- The asymmetry defects `ValidateEdgeRules` logs while iterating the
table's key/value pairs. -/
def symmetryDefects (tbl : List (ETileEdgeType × ETileEdgeType)) : List Defect :=
  tbl.flatMap (fun p =>
    match findEdge tbl p.2 with
    | some r => if r = p.1 then [] else [Defect.asymmetric p.1 p.2]
    | none => [Defect.asymmetric p.1 p.2])

/-- `ValidateEdgeRules`: returns immediately reporting only the
empty-catalog defect when the catalog is empty; otherwise returns whether no
defect was found, together with every defect logged (missing edge rules in
tile-scan order, then asymmetric pairs in table order). -/
def validateEdgeRules (cfg : WFCConfig) : Bool × List Defect :=
  if cfg.tileTypes.length = 0 then (false, [Defect.emptyCatalog])
  else
    ((catalogDefects cfg.compatibleEdges cfg.tileTypes
        ++ symmetryDefects cfg.compatibleEdges).isEmpty,
      catalogDefects cfg.compatibleEdges cfg.tileTypes
        ++ symmetryDefects cfg.compatibleEdges)

/-- `GenerateGrid`: validate the edge rules (returning with everything
untouched on failure), initialize the grid, and run the solve loop with the
`width*height*10` safety cap; warn iff the cap was reached.  `prevGrid` is
the component's `Grid` member before the call and `k` the randomness call
counter before the call. -/
def generateGrid (cfg : WFCConfig) (rng : Nat → Nat) (prevGrid : List FCell)
    (k : Nat) : GenResult :=
  if (validateEdgeRules cfg).1 = false then
    { grid := prevGrid, iterations := 0, warned := false, rngCounter := k }
  else
    { grid := (solveLoop cfg rng (initGrid cfg) k 0
        (cfg.gridWidth * cfg.gridHeight * 10)).1,
      iterations := (solveLoop cfg rng (initGrid cfg) k 0
        (cfg.gridWidth * cfg.gridHeight * 10)).2.1,
      warned := decide (cfg.gridWidth * cfg.gridHeight * 10
        ≤ (solveLoop cfg rng (initGrid cfg) k 0
            (cfg.gridWidth * cfg.gridHeight * 10)).2.1),
      rngCounter := (solveLoop cfg rng (initGrid cfg) k 0
        (cfg.gridWidth * cfg.gridHeight * 10)).2.2 }

/-- A cell is eligible for entropy selection: not collapsed and with a
positive candidate count. -/
def eligibleCell (c : FCell) : Prop :=
  c.bIsCollapsed = false ∧ 0 < c.possibleStates.length

/-- The cellwise shrink relation between two grids: every cell's candidate
list in the second grid is a sublist of its candidate list in the first, and
every cell collapsed in the first grid is untouched in the second. -/
def CellwiseLe (g g2 : List FCell) : Prop :=
  ∀ j : Nat, (g2.getD j default).possibleStates.Sublist (g.getD j default).possibleStates
    ∧ ((g.getD j default).bIsCollapsed = true → g2.getD j default = g.getD j default)

/-- The per-cell liveness invariant of a run: the candidate list is never
empty and its length stays below the `int32` sentinel. -/
def cellOk (c : FCell) : Prop :=
  c.possibleStates ≠ [] ∧ c.possibleStates.length < 2147483647

/-- The per-cell well-formedness invariant of claim C10: all candidates are
valid tile indices, and a collapsed cell's candidate list is exactly the
singleton of its final state, itself a valid tile index. -/
def cellInv (n : Nat) (c : FCell) : Prop :=
  (∀ s ∈ c.possibleStates, s < n)
  ∧ (c.bIsCollapsed = true →
      ∃ s, c.possibleStates = [s] ∧ c.finalState = (s : Int) ∧ s < n)

instance (c : FCell) : Decidable (eligibleCell c) := by
  unfold eligibleCell
  infer_instance

/-- A small concrete grid fixture used by witnesses. -/
def wfcGridA : List FCell :=
  [{ possibleStates := [0, 1], bIsCollapsed := false, finalState := -1 },
   { possibleStates := [0], bIsCollapsed := false, finalState := -1 }]

/-- A small concrete configuration fixture used by witnesses: a 2-by-1 grid,
one tile type whose edges are all `Type_A`, and the symmetric table
`A → A`. -/
def wfcCfgA : WFCConfig :=
  { gridWidth := 2, gridHeight := 1,
    tileTypes := [{ northEdge := ETileEdgeType.typeA,
                    eastEdge := ETileEdgeType.typeA,
                    southEdge := ETileEdgeType.typeA,
                    westEdge := ETileEdgeType.typeA }],
    compatibleEdges := [(ETileEdgeType.typeA, ETileEdgeType.typeA)] }

lemma cellwiseLe_refl (g : List FCell) : CellwiseLe g g :=
  fun _ => ⟨List.Sublist.refl _, fun _ => rfl⟩

lemma cellwiseLe_trans {g1 g2 g3 : List FCell} (h12 : CellwiseLe g1 g2)
    (h23 : CellwiseLe g2 g3) : CellwiseLe g1 g3 := by
  intro j
  refine ⟨List.Sublist.trans (h23 j).1 (h12 j).1, ?_⟩
  intro hcol
  have he := (h12 j).2 hcol
  have hcol2 : (g2.getD j default).bIsCollapsed = true := by rw [he]; exact hcol
  rw [(h23 j).2 hcol2, he]

lemma upd_cellwise (g : List FCell) (ci : Int) (a : List Nat) :
    CellwiseLe g (updateCellPossibilities g ci a).1 := by
  unfold updateCellPossibilities
  split
  · exact cellwiseLe_refl g
  next h1 =>
    split
    · exact cellwiseLe_refl g
    next h2 =>
      have hlt : ci.toNat < g.length := by omega
      split
      next h3 =>
        split
        next h4 =>
          intro j
          by_cases hj : j = ci.toNat
          · subst hj
            rw [getD_set_self _ _ _ hlt]
            refine ⟨List.filter_sublist _, ?_⟩
            intro hcol
            exact absurd hcol h2
          · rw [getD_set_ne _ _ _ _ (fun he => hj he.symm)]
            exact ⟨List.Sublist.refl _, fun _ => rfl⟩
        next h4 =>
          intro j
          by_cases hj : j = ci.toNat
          · subst hj
            rw [getD_set_self _ _ _ hlt]
            refine ⟨List.filter_sublist _, ?_⟩
            intro hcol
            exact absurd hcol h2
          · rw [getD_set_ne _ _ _ _ (fun he => hj he.symm)]
            exact ⟨List.Sublist.refl _, fun _ => rfl⟩
      next h3 => exact cellwiseLe_refl g

lemma processNeighbor_cellwise (cfg : WFCConfig) (ci ni : Nat)
    (eC eN : FTileType → ETileEdgeType) (gq : List FCell × List Nat) :
    CellwiseLe gq.1 (processNeighbor cfg ci ni eC eN gq).1 := by
  simp only [processNeighbor]
  exact upd_cellwise gq.1 (ni : Int) _

lemma stepDir_cellwise (cfg : WFCConfig) (cond : Bool) (ci ni : Nat)
    (eC eN : FTileType → ETileEdgeType) (gq : List FCell × List Nat) :
    CellwiseLe gq.1 (stepDir cfg cond ci ni eC eN gq).1 := by
  unfold stepDir
  split
  · exact processNeighbor_cellwise cfg ci ni eC eN gq
  · exact cellwiseLe_refl gq.1

lemma processCell_cellwise (cfg : WFCConfig) (g : List FCell) (q : List Nat)
    (cur : Nat) : CellwiseLe g (processCell cfg g q cur).1 := by
  simp only [processCell]
  exact cellwiseLe_trans (stepDir_cellwise _ _ _ _ _ _ (g, q))
    (cellwiseLe_trans (stepDir_cellwise _ _ _ _ _ _ _)
      (cellwiseLe_trans (stepDir_cellwise _ _ _ _ _ _ _)
        (stepDir_cellwise _ _ _ _ _ _ _)))

lemma propagateLoop_nil (cfg : WFCConfig) (g : List FCell) :
    propagateLoop cfg g [] = g := by
  unfold propagateLoop
  rfl

lemma propagateLoop_cons (cfg : WFCConfig) (g : List FCell) (cur : Nat)
    (rest : List Nat) :
    propagateLoop cfg g (cur :: rest)
      = propagateLoop cfg (processCell cfg g rest cur).1
          (processCell cfg g rest cur).2 := by
  conv_lhs => unfold propagateLoop

lemma propagateLoop_cellwise_aux (cfg : WFCConfig) :
    ∀ (N : Nat) (g : List FCell) (q : List Nat), totalPoss g + q.length ≤ N →
      CellwiseLe g (propagateLoop cfg g q) := by
  intro N
  induction N with
  | zero =>
    intro g q hq
    have hq0 : q = [] := by
      cases q with
      | nil => rfl
      | cons a l => simp at hq
    subst hq0
    rw [propagateLoop_nil]
    exact cellwiseLe_refl g
  | succ N ih =>
    intro g q hq
    cases q with
    | nil =>
      rw [propagateLoop_nil]
      exact cellwiseLe_refl g
    | cons cur rest =>
      rw [propagateLoop_cons]
      have hb := processCell_bound cfg g rest cur
      have h2 := ih (processCell cfg g rest cur).1 (processCell cfg g rest cur).2
        (by simp only [List.length_cons] at hq; omega)
      exact cellwiseLe_trans (processCell_cellwise cfg g rest cur) h2

lemma propagateLoop_cellwise (cfg : WFCConfig) (g : List FCell) (q : List Nat) :
    CellwiseLe g (propagateLoop cfg g q) :=
  propagateLoop_cellwise_aux cfg (totalPoss g + q.length) g q (le_refl _)

lemma propagateConstraints_cellwise (cfg : WFCConfig) (g : List FCell)
    (ci : Int) : CellwiseLe g (propagateConstraints cfg g ci) := by
  unfold propagateConstraints
  split
  · exact cellwiseLe_refl g
  · exact propagateLoop_cellwise cfg g _

lemma getD_mem (l : List FCell) (i : Nat) (h : i < l.length) :
    l.getD i default ∈ l := by
  rw [List.getD_eq_getElem l default h]
  exact List.getElem_mem h

lemma getD_mem_nat (l : List Nat) (i d : Nat) (h : i < l.length) :
    l.getD i d ∈ l := by
  rw [List.getD_eq_getElem l d h]
  exact List.getElem_mem h

/-- Any per-cell predicate preserved by the two possible cell rewrites of
`UpdateCellPossibilities` holds on every cell of the updated grid. -/
lemma upd_preserve (Q : FCell → Prop)
    (hQ1 : ∀ (c : FCell) (a : List Nat), Q c → c.bIsCollapsed = false →
      (c.possibleStates.filter (fun s => a.contains s)).length = 1 →
      Q { c with
            possibleStates := c.possibleStates.filter (fun s => a.contains s),
            finalState := (((c.possibleStates.filter
              (fun s => a.contains s)).headD 0 : Nat) : Int),
            bIsCollapsed := true })
    (hQ2 : ∀ (c : FCell) (a : List Nat), Q c → c.bIsCollapsed = false →
      0 < (c.possibleStates.filter (fun s => a.contains s)).length →
      (c.possibleStates.filter (fun s => a.contains s)).length ≠ 1 →
      Q { c with
            possibleStates := c.possibleStates.filter (fun s => a.contains s) })
    (g : List FCell) (ci : Int) (a : List Nat)
    (hg : ∀ c ∈ g, Q c) :
    ∀ c ∈ (updateCellPossibilities g ci a).1, Q c := by
  unfold updateCellPossibilities
  split
  · exact hg
  next h1 =>
    split
    · exact hg
    next h2 =>
      have hlt : ci.toNat < g.length := by omega
      have hmem := getD_mem g ci.toNat hlt
      have hcol : (g.getD ci.toNat default).bIsCollapsed = false := by
        simpa using h2
      split
      next h3 =>
        split
        next h4 =>
          intro c hc
          rcases List.mem_or_eq_of_mem_set hc with hm | he
          · exact hg c hm
          · rw [he]
            exact hQ1 (g.getD ci.toNat default) a (hg _ hmem) hcol h4
        next h4 =>
          intro c hc
          rcases List.mem_or_eq_of_mem_set hc with hm | he
          · exact hg c hm
          · rw [he]
            exact hQ2 (g.getD ci.toNat default) a (hg _ hmem) hcol h3 h4
      next h3 => exact hg

lemma processNeighbor_preserve (Q : FCell → Prop) (cfg : WFCConfig)
    (ci ni : Nat) (eC eN : FTileType → ETileEdgeType)
    (hupd : ∀ (g : List FCell) (cx : Int) (a : List Nat),
      (∀ c ∈ g, Q c) → ∀ c ∈ (updateCellPossibilities g cx a).1, Q c)
    (gq : List FCell × List Nat) (hg : ∀ c ∈ gq.1, Q c) :
    ∀ c ∈ (processNeighbor cfg ci ni eC eN gq).1, Q c := by
  simp only [processNeighbor]
  exact hupd gq.1 (ni : Int) _ hg

lemma stepDir_preserve (Q : FCell → Prop) (cfg : WFCConfig) (cond : Bool)
    (ci ni : Nat) (eC eN : FTileType → ETileEdgeType)
    (hupd : ∀ (g : List FCell) (cx : Int) (a : List Nat),
      (∀ c ∈ g, Q c) → ∀ c ∈ (updateCellPossibilities g cx a).1, Q c)
    (gq : List FCell × List Nat) (hg : ∀ c ∈ gq.1, Q c) :
    ∀ c ∈ (stepDir cfg cond ci ni eC eN gq).1, Q c := by
  unfold stepDir
  split
  · exact processNeighbor_preserve Q cfg ci ni eC eN hupd gq hg
  · exact hg

lemma processCell_preserve (Q : FCell → Prop) (cfg : WFCConfig)
    (hupd : ∀ (g : List FCell) (cx : Int) (a : List Nat),
      (∀ c ∈ g, Q c) → ∀ c ∈ (updateCellPossibilities g cx a).1, Q c)
    (g : List FCell) (q : List Nat) (cur : Nat) (hg : ∀ c ∈ g, Q c) :
    ∀ c ∈ (processCell cfg g q cur).1, Q c := by
  simp only [processCell]
  exact stepDir_preserve Q cfg _ _ _ _ _ hupd _
    (stepDir_preserve Q cfg _ _ _ _ _ hupd _
      (stepDir_preserve Q cfg _ _ _ _ _ hupd _
        (stepDir_preserve Q cfg _ _ _ _ _ hupd (g, q) hg)))

lemma propagateLoop_preserve_aux (Q : FCell → Prop) (cfg : WFCConfig)
    (hupd : ∀ (g : List FCell) (cx : Int) (a : List Nat),
      (∀ c ∈ g, Q c) → ∀ c ∈ (updateCellPossibilities g cx a).1, Q c) :
    ∀ (N : Nat) (g : List FCell) (q : List Nat), totalPoss g + q.length ≤ N →
      (∀ c ∈ g, Q c) → ∀ c ∈ propagateLoop cfg g q, Q c := by
  intro N
  induction N with
  | zero =>
    intro g q hq hg
    have hq0 : q = [] := by
      cases q with
      | nil => rfl
      | cons a l => simp at hq
    subst hq0
    rw [propagateLoop_nil]
    exact hg
  | succ N ih =>
    intro g q hq hg
    cases q with
    | nil =>
      rw [propagateLoop_nil]
      exact hg
    | cons cur rest =>
      rw [propagateLoop_cons]
      have hb := processCell_bound cfg g rest cur
      exact ih (processCell cfg g rest cur).1 (processCell cfg g rest cur).2
        (by simp only [List.length_cons] at hq; omega)
        (processCell_preserve Q cfg hupd g rest cur hg)

lemma propagateConstraints_preserve (Q : FCell → Prop) (cfg : WFCConfig)
    (hupd : ∀ (g : List FCell) (cx : Int) (a : List Nat),
      (∀ c ∈ g, Q c) → ∀ c ∈ (updateCellPossibilities g cx a).1, Q c)
    (g : List FCell) (ci : Int) (hg : ∀ c ∈ g, Q c) :
    ∀ c ∈ propagateConstraints cfg g ci, Q c := by
  unfold propagateConstraints
  split
  · exact hg
  · exact propagateLoop_preserve_aux Q cfg hupd (totalPoss g + 1) g _
      (by simp) hg

/-- Any per-cell predicate preserved by the collapse rewrite holds on every
cell of the grid after `CollapseCell`. -/
lemma collapse_preserve (Q : FCell → Prop)
    (hQ3 : ∀ (c : FCell) (x : Nat), Q c → c.bIsCollapsed = false →
      x ∈ c.possibleStates →
      Q { c with
            possibleStates := [x],
            finalState := (x : Int),
            bIsCollapsed := true })
    (rng : Nat → Nat) (g : List FCell) (k : Nat) (ci : Int)
    (hg : ∀ c ∈ g, Q c) :
    ∀ c ∈ (collapseCell rng g k ci).1, Q c := by
  unfold collapseCell
  split
  · exact hg
  next h1 =>
    split
    · exact hg
    next h2 =>
      have hlt : ci.toNat < g.length := by omega
      have hmem := getD_mem g ci.toNat hlt
      have hcol : (g.getD ci.toNat default).bIsCollapsed = false := by
        rcases Bool.eq_false_or_eq_true (g.getD ci.toNat default).bIsCollapsed with h | h
        · exact absurd (Or.inl h) h2
        · exact h
      have hlen : 0 < (g.getD ci.toNat default).possibleStates.length := by
        rcases Nat.eq_zero_or_pos (g.getD ci.toNat default).possibleStates.length with h | h
        · exact absurd (Or.inr h) h2
        · exact h
      intro c hc
      rcases List.mem_or_eq_of_mem_set hc with hm | he
      · exact hg c hm
      · rw [he]
        exact hQ3 (g.getD ci.toNat default) _ (hg _ hmem) hcol
          (getD_mem_nat _ _ _ (Nat.mod_lt _ hlen))

lemma propagateLoopFuel_eq (cfg : WFCConfig) :
    ∀ (fuel : Nat) (g : List FCell) (q : List Nat),
      totalPoss g + q.length < fuel →
      propagateLoopFuel cfg fuel g q = some (propagateLoop cfg g q) := by
  intro fuel
  induction fuel with
  | zero => intro g q h; omega
  | succ n ih =>
    intro g q h
    cases q with
    | nil =>
      rw [propagateLoop_nil]
      rfl
    | cons cur rest =>
      rw [propagateLoop_cons]
      have hb := processCell_bound cfg g rest cur
      show propagateLoopFuel cfg n (processCell cfg g rest cur).1
        (processCell cfg g rest cur).2 = _
      exact ih _ _ (by simp only [List.length_cons] at h; omega)

/-- If no cell of the remaining list is eligible with entropy strictly below
the running best entropy, the scan returns the running best index. -/
lemma findLoop_no_improvement : ∀ (l : List FCell) (i : Nat) (bi be : Int),
    (∀ k, k < l.length → ¬(eligibleCell (l.getD k default)
      ∧ ((l.getD k default).possibleStates.length : Int) < be)) →
    findLoop l i bi be = bi := by
  intro l
  induction l with
  | nil => intro i bi be _; rfl
  | cons c rest ih =>
    intro i bi be h
    unfold findLoop
    split
    next hc =>
      exfalso
      have h0 := h 0 (by simp)
      simp only [List.getD_cons_zero] at h0
      exact h0 ⟨⟨hc.1, hc.2.1⟩, hc.2.2⟩
    next hc =>
      apply ih (i + 1) bi be
      intro k hk
      have hx := h (k + 1) (by simpa using Nat.succ_lt_succ hk)
      simpa using hx

/-- If some cell of the remaining list is eligible with entropy strictly
below the running best entropy, the scan returns `start + m` for the first
index `m` attaining the minimum entropy among such cells. -/
lemma findLoop_found : ∀ (l : List FCell) (i : Nat) (bi be : Int) (k : Nat),
    k < l.length → eligibleCell (l.getD k default) →
    ((l.getD k default).possibleStates.length : Int) < be →
    ∃ m, m < l.length ∧ findLoop l i bi be = ((i + m : Nat) : Int)
      ∧ eligibleCell (l.getD m default)
      ∧ ((l.getD m default).possibleStates.length : Int) < be
      ∧ (∀ j, j < l.length → eligibleCell (l.getD j default) →
          ((l.getD m default).possibleStates.length
              ≤ (l.getD j default).possibleStates.length
            ∨ be ≤ ((l.getD j default).possibleStates.length : Int)))
      ∧ (∀ j, j < m → eligibleCell (l.getD j default) →
          ((l.getD m default).possibleStates.length
              < (l.getD j default).possibleStates.length
            ∨ be ≤ ((l.getD j default).possibleStates.length : Int))) := by
  intro l
  induction l with
  | nil => intro i bi be k hk; simp at hk
  | cons c rest ih =>
    intro i bi be k hk helig hlt
    unfold findLoop
    split
    next hc =>
      by_cases hrest : ∃ k2, k2 < rest.length ∧ eligibleCell (rest.getD k2 default)
          ∧ ((rest.getD k2 default).possibleStates.length : Int)
            < (c.possibleStates.length : Int)
      · obtain ⟨k2, hk2, he2, hl2⟩ := hrest
        obtain ⟨m2, hm2, heq, he, hl, hmin, htie⟩ :=
          ih (i + 1) (i : Int) (c.possibleStates.length : Int) k2 hk2 he2 hl2
        refine ⟨m2 + 1, by simpa using Nat.succ_lt_succ hm2, ?_, ?_, ?_, ?_, ?_⟩
        · rw [heq]
          omega
        · simpa using he
        · simp only [List.getD_cons_succ]
          have hcc := hc.2.2
          omega
        · intro j hj hej
          cases j with
          | zero =>
            left
            simp only [List.getD_cons_succ, List.getD_cons_zero]
            omega
          | succ j2 =>
            have hj2 : j2 < rest.length := by simpa using hj
            have hej2 : eligibleCell (rest.getD j2 default) := by simpa using hej
            have hm := hmin j2 hj2 hej2
            simp only [List.getD_cons_succ]
            rcases hm with h | h
            · left
              exact h
            · left
              omega
        · intro j hj hej
          cases j with
          | zero =>
            left
            simp only [List.getD_cons_succ, List.getD_cons_zero]
            omega
          | succ j2 =>
            have hj2 : j2 < m2 := by omega
            have hej2 : eligibleCell (rest.getD j2 default) := by simpa using hej
            have hm := htie j2 hj2 hej2
            simp only [List.getD_cons_succ]
            rcases hm with h | h
            · left
              exact h
            · left
              omega
      · have hni : ∀ k2, k2 < rest.length → ¬(eligibleCell (rest.getD k2 default)
            ∧ ((rest.getD k2 default).possibleStates.length : Int)
              < (c.possibleStates.length : Int)) := by
          intro k2 hk2 hcon
          exact hrest ⟨k2, hk2, hcon.1, hcon.2⟩
        have heq := findLoop_no_improvement rest (i + 1) (i : Int)
          (c.possibleStates.length : Int) hni
        refine ⟨0, by simp, ?_, ?_, ?_, ?_, ?_⟩
        · rw [heq]
          omega
        · simpa using And.intro hc.1 hc.2.1
        · simpa using hc.2.2
        · intro j hj hej
          cases j with
          | zero =>
            left
            exact le_refl _
          | succ j2 =>
            have hj2 : j2 < rest.length := by simpa using hj
            have hej2 : eligibleCell (rest.getD j2 default) := by simpa using hej
            have hn := hni j2 hj2
            left
            simp only [List.getD_cons_succ, List.getD_cons_zero]
            by_contra hb
            exact hn ⟨hej2, by omega⟩
        · intro j hj
          omega
    next hc =>
      cases k with
      | zero =>
        exfalso
        simp only [List.getD_cons_zero] at helig hlt
        exact hc ⟨helig.1, helig.2, hlt⟩
      | succ k2 =>
        have hk2 : k2 < rest.length := by simpa using hk
        have he2 : eligibleCell (rest.getD k2 default) := by simpa using helig
        have hl2 : ((rest.getD k2 default).possibleStates.length : Int) < be := by
          simpa using hlt
        obtain ⟨m2, hm2, heq, he, hl, hmin, htie⟩ := ih (i + 1) bi be k2 hk2 he2 hl2
        have hcase0 : eligibleCell c →
            be ≤ (c.possibleStates.length : Int) := by
          intro hej
          by_contra hb
          exact hc ⟨hej.1, hej.2, by omega⟩
        refine ⟨m2 + 1, by simpa using Nat.succ_lt_succ hm2, ?_,
          by simpa using he, by simpa using hl, ?_, ?_⟩
        · rw [heq]
          omega
        · intro j hj hej
          cases j with
          | zero =>
            right
            simp only [List.getD_cons_zero] at hej ⊢
            exact hcase0 hej
          | succ j2 =>
            have hj2 : j2 < rest.length := by simpa using hj
            have hej2 : eligibleCell (rest.getD j2 default) := by simpa using hej
            have hm := hmin j2 hj2 hej2
            simpa using hm
        · intro j hj hej
          cases j with
          | zero =>
            right
            simp only [List.getD_cons_zero] at hej ⊢
            exact hcase0 hej
          | succ j2 =>
            have hj2 : j2 < m2 := by omega
            have hej2 : eligibleCell (rest.getD j2 default) := by simpa using hej
            have hm := htie j2 hj2 hej2
            simpa using hm

/-- When some cell is eligible (and all candidate counts are below the
`int32` sentinel), the entropy scan returns the first index attaining the
minimum entropy over eligible cells. -/
lemma findCell_found (g : List FCell) (k : Nat) (hk : k < g.length)
    (he : eligibleCell (g.getD k default))
    (hsmall : ∀ j, j < g.length →
      (g.getD j default).possibleStates.length < 2147483647) :
    ∃ m, m < g.length ∧ findCellWithLowestEntropy g = (m : Int)
      ∧ eligibleCell (g.getD m default)
      ∧ (∀ j, j < g.length → eligibleCell (g.getD j default) →
          (g.getD m default).possibleStates.length
            ≤ (g.getD j default).possibleStates.length)
      ∧ (∀ j, j < m → eligibleCell (g.getD j default) →
          (g.getD m default).possibleStates.length
            < (g.getD j default).possibleStates.length) := by
  have hlt : ((g.getD k default).possibleStates.length : Int) < int32Max := by
    have := hsmall k hk
    unfold int32Max
    omega
  obtain ⟨m, hm, heq, he2, _, hmin, htie⟩ :=
    findLoop_found g 0 (-1) int32Max k hk he hlt
  refine ⟨m, hm, ?_, he2, ?_, ?_⟩
  · unfold findCellWithLowestEntropy
    rw [heq]
    omega
  · intro j hj hej
    rcases hmin j hj hej with h | h
    · exact h
    · exfalso
      have := hsmall j hj
      unfold int32Max at h
      omega
  · intro j hj hej
    rcases htie j hj hej with h | h
    · exact h
    · exfalso
      have := hsmall j (by omega)
      unfold int32Max at h
      omega

/-- The entropy scan returns `-1` exactly when no cell is eligible
(candidate counts below the `int32` sentinel). -/
lemma findCell_none_iff (g : List FCell)
    (hsmall : ∀ j, j < g.length →
      (g.getD j default).possibleStates.length < 2147483647) :
    (findCellWithLowestEntropy g = -1
      ↔ ∀ j, j < g.length → ¬eligibleCell (g.getD j default)) := by
  constructor
  · intro h j hj hej
    obtain ⟨m, _, heq, _⟩ := findCell_found g j hj hej hsmall
    rw [h] at heq
    omega
  · intro h
    unfold findCellWithLowestEntropy
    apply findLoop_no_improvement
    intro j hj hcon
    exact h j hj hcon.1

lemma cellOk_upd : ∀ (g : List FCell) (cx : Int) (a : List Nat),
    (∀ c ∈ g, cellOk c) → ∀ c ∈ (updateCellPossibilities g cx a).1, cellOk c := by
  apply upd_preserve cellOk
  · intro c a hQ _ h1
    refine ⟨?_, ?_⟩
    · simp only []
      intro he
      rw [he] at h1
      simp at h1
    · simp only []
      have := List.length_filter_le (fun s => a.contains s) c.possibleStates
      omega
  · intro c a hQ _ h3 _
    refine ⟨?_, ?_⟩
    · simp only []
      intro he
      rw [he] at h3
      simp at h3
    · simp only []
      have := List.length_filter_le (fun s => a.contains s) c.possibleStates
      have := hQ.2
      omega

lemma cellOk_collapse : ∀ (c : FCell) (x : Nat), cellOk c →
    c.bIsCollapsed = false → x ∈ c.possibleStates →
    cellOk { c with
               possibleStates := [x],
               finalState := (x : Int),
               bIsCollapsed := true } := by
  intro c x _ _ _
  exact ⟨by simp, by simp⟩

lemma not_fully_exists (g : List FCell) (h : isGridFullyCollapsed g = false) :
    ∃ j, j < g.length ∧ (g.getD j default).bIsCollapsed = false := by
  unfold isGridFullyCollapsed at h
  rw [List.all_eq_false] at h
  obtain ⟨c, hc, hcol⟩ := h
  obtain ⟨j, hj, he⟩ := List.mem_iff_getElem.mp hc
  refine ⟨j, hj, ?_⟩
  rw [List.getD_eq_getElem g default hj, he]
  simpa using hcol

lemma solveLoop_iter_le (cfg : WFCConfig) (rng : Nat → Nat) :
    ∀ (N : Nat) (g : List FCell) (k iterCount maxIter : Nat),
      maxIter - iterCount ≤ N → iterCount ≤ maxIter →
      (solveLoop cfg rng g k iterCount maxIter).2.1 ≤ maxIter := by
  intro N
  induction N with
  | zero =>
    intro g k it mx h1 h2
    unfold solveLoop
    have hmx : mx ≤ it := by omega
    rw [if_pos (Or.inr hmx)]
    exact h2
  | succ N ih =>
    intro g k it mx h1 h2
    unfold solveLoop
    split
    · exact h2
    next hcond =>
      split
      · exact h2
      next hfind =>
        have hit : it < mx := by
          rcases not_or.mp hcond with ⟨_, h4⟩
          omega
        exact ih _ _ _ _ (by omega) (by omega)

lemma solveLoop_exit (cfg : WFCConfig) (rng : Nat → Nat) :
    ∀ (N : Nat) (g : List FCell) (k iterCount maxIter : Nat),
      maxIter - iterCount ≤ N →
      (∀ c ∈ g, cellOk c) →
      (isGridFullyCollapsed (solveLoop cfg rng g k iterCount maxIter).1 = true
        ∨ maxIter ≤ (solveLoop cfg rng g k iterCount maxIter).2.1) := by
  intro N
  induction N with
  | zero =>
    intro g k it mx h1 hg
    unfold solveLoop
    by_cases hful : isGridFullyCollapsed g = true
    · rw [if_pos (Or.inl hful)]
      exact Or.inl hful
    · have hmx : mx ≤ it := by omega
      rw [if_pos (Or.inr hmx)]
      exact Or.inr hmx
  | succ N ih =>
    intro g k it mx h1 hg
    unfold solveLoop
    split
    next hcond =>
      rcases hcond with hful | hmx
      · exact Or.inl hful
      · exact Or.inr hmx
    next hcond =>
      have hnf : isGridFullyCollapsed g = false := by
        rcases not_or.mp hcond with ⟨h3, _⟩
        simpa using h3
      have hit : it < mx := by
        rcases not_or.mp hcond with ⟨_, h4⟩
        omega
      split
      next hfind =>
        exfalso
        obtain ⟨j, hj, hcolj⟩ := not_fully_exists g hnf
        have hsmall : ∀ j2, j2 < g.length →
            (g.getD j2 default).possibleStates.length < 2147483647 :=
          fun j2 hj2 => (hg _ (getD_mem g j2 hj2)).2
        have helig : eligibleCell (g.getD j default) := by
          refine ⟨hcolj, ?_⟩
          have hne := (hg _ (getD_mem g j hj)).1
          exact List.length_pos.mpr hne
        exact ((findCell_none_iff g hsmall).mp hfind) j hj helig
      next hfind =>
        apply ih _ _ _ _ (by omega)
        exact propagateConstraints_preserve cellOk cfg cellOk_upd _ _
          (collapse_preserve cellOk cellOk_collapse rng g k _ hg)

lemma mem_tileEdgeDefects (tbl : List (ETileEdgeType × ETileEdgeType))
    (a i : Nat) (t : FTileType) (d : EDirection) :
    (Defect.missingEdgeRule i d ∈ tileEdgeDefects tbl a t
      ↔ i = a ∧ containsKey tbl (edgeOfDir t d) = false) := by
  cases d <;>
    (unfold tileEdgeDefects edgeOfDir
     by_cases h1 : containsKey tbl t.northEdge <;>
      by_cases h2 : containsKey tbl t.eastEdge <;>
      by_cases h3 : containsKey tbl t.southEdge <;>
      by_cases h4 : containsKey tbl t.westEdge <;>
      simp_all)

lemma tileEdgeDefects_shape (tbl : List (ETileEdgeType × ETileEdgeType))
    (a : Nat) (t : FTileType) :
    ∀ x ∈ tileEdgeDefects tbl a t, ∃ d, x = Defect.missingEdgeRule a d := by
  intro x hx
  unfold tileEdgeDefects at hx
  by_cases h1 : containsKey tbl t.northEdge <;>
    by_cases h2 : containsKey tbl t.eastEdge <;>
    by_cases h3 : containsKey tbl t.southEdge <;>
    by_cases h4 : containsKey tbl t.westEdge <;>
    simp_all <;>
    first
      | exact ⟨_, rfl⟩
      | (rcases hx with h | h | h | h <;> exact ⟨_, h⟩)
      | (rcases hx with h | h | h <;> exact ⟨_, h⟩)
      | (rcases hx with h | h <;> exact ⟨_, h⟩)

lemma mem_catalogDefects (tbl : List (ETileEdgeType × ETileEdgeType))
    (tiles : List FTileType) (i : Nat) (d : EDirection) :
    (Defect.missingEdgeRule i d ∈ catalogDefects tbl tiles
      ↔ i < tiles.length
        ∧ containsKey tbl (edgeOfDir (tiles.getD i default) d) = false) := by
  unfold catalogDefects
  rw [List.mem_flatMap]
  constructor
  · rintro ⟨a, ha, hmem⟩
    rw [List.mem_range] at ha
    rw [mem_tileEdgeDefects] at hmem
    obtain ⟨hia, hc⟩ := hmem
    subst hia
    exact ⟨ha, hc⟩
  · rintro ⟨hi, hc⟩
    exact ⟨i, List.mem_range.mpr hi, (mem_tileEdgeDefects _ _ _ _ _).mpr ⟨rfl, hc⟩⟩

lemma catalogDefects_shape (tbl : List (ETileEdgeType × ETileEdgeType))
    (tiles : List FTileType) :
    ∀ x ∈ catalogDefects tbl tiles, ∃ i d, x = Defect.missingEdgeRule i d := by
  intro x hx
  unfold catalogDefects at hx
  rw [List.mem_flatMap] at hx
  obtain ⟨a, _, hmem⟩ := hx
  obtain ⟨d, hd⟩ := tileEdgeDefects_shape tbl a _ x hmem
  exact ⟨a, d, hd⟩

lemma symmetryDefects_shape (tbl : List (ETileEdgeType × ETileEdgeType)) :
    ∀ x ∈ symmetryDefects tbl, ∃ e1 e2, x = Defect.asymmetric e1 e2 := by
  intro x hx
  unfold symmetryDefects at hx
  rw [List.mem_flatMap] at hx
  obtain ⟨p, _, hmem⟩ := hx
  rcases hfind : findEdge tbl p.2 with _ | r <;> rw [hfind] at hmem <;>
    simp at hmem
  · subst hmem
    exact ⟨_, _, rfl⟩
  · obtain ⟨-, hx2⟩ := hmem
    subst hx2
    exact ⟨_, _, rfl⟩

lemma mem_symmetryDefects (tbl : List (ETileEdgeType × ETileEdgeType))
    (e1 e2 : ETileEdgeType) :
    (Defect.asymmetric e1 e2 ∈ symmetryDefects tbl
      ↔ ((e1, e2) ∈ tbl ∧ findEdge tbl e2 ≠ some e1)) := by
  unfold symmetryDefects
  rw [List.mem_flatMap]
  constructor
  · rintro ⟨p, hp, hmem⟩
    rcases hfind : findEdge tbl p.2 with _ | r <;> rw [hfind] at hmem <;>
      simp at hmem
    · obtain ⟨he1, he2⟩ := hmem
      subst he1
      subst he2
      refine ⟨by simpa using hp, ?_⟩
      rw [hfind]
      simp
    · obtain ⟨hr, he1, he2⟩ := hmem
      subst he1
      subst he2
      refine ⟨by simpa using hp, ?_⟩
      intro hcontra
      rw [hfind] at hcontra
      exact hr (by simpa using hcontra)
  · rintro ⟨hp, hne⟩
    refine ⟨(e1, e2), hp, ?_⟩
    dsimp only
    rcases hfind : findEdge tbl e2 with _ | r
    · simp
    · have hr : r ≠ e1 := fun h => hne (by rw [hfind, h])
      simp [hr]

lemma validateEdgeRules_false_iff (cfg : WFCConfig) :
    ((validateEdgeRules cfg).1 = false
      ↔ (cfg.tileTypes = []
        ∨ (∃ i d, i < cfg.tileTypes.length
            ∧ containsKey cfg.compatibleEdges
                (edgeOfDir (cfg.tileTypes.getD i default) d) = false)
        ∨ (∃ e1 e2, (e1, e2) ∈ cfg.compatibleEdges
            ∧ findEdge cfg.compatibleEdges e2 ≠ some e1))) := by
  unfold validateEdgeRules
  split
  next h0 =>
    constructor
    · intro _
      exact Or.inl (List.length_eq_zero.mp h0)
    · intro _
      rfl
  next h0 =>
    have hne : cfg.tileTypes ≠ [] := by
      intro he
      exact h0 (by rw [he]; rfl)
    dsimp only
    rw [List.isEmpty_eq_false]
    constructor
    · intro hd
      rcases List.exists_mem_of_ne_nil _ hd with ⟨x, hx⟩
      rcases List.mem_append.mp hx with hx1 | hx2
      · obtain ⟨i, d, he⟩ := catalogDefects_shape _ _ x hx1
        subst he
        obtain ⟨hi, hc⟩ := (mem_catalogDefects _ _ _ _).mp hx1
        exact Or.inr (Or.inl ⟨i, d, hi, hc⟩)
      · obtain ⟨e1, e2, he⟩ := symmetryDefects_shape _ x hx2
        subst he
        obtain ⟨hm, hf⟩ := (mem_symmetryDefects _ _ _).mp hx2
        exact Or.inr (Or.inr ⟨e1, e2, hm, hf⟩)
    · intro hd hnil
      rcases hd with he | ⟨i, d, hi, hc⟩ | ⟨e1, e2, hm, hf⟩
      · exact absurd he hne
      · have hmem : Defect.missingEdgeRule i d
            ∈ catalogDefects cfg.compatibleEdges cfg.tileTypes
              ++ symmetryDefects cfg.compatibleEdges :=
          List.mem_append.mpr (Or.inl ((mem_catalogDefects _ _ _ _).mpr ⟨hi, hc⟩))
        rw [hnil] at hmem
        simp at hmem
      · have hmem : Defect.asymmetric e1 e2
            ∈ catalogDefects cfg.compatibleEdges cfg.tileTypes
              ++ symmetryDefects cfg.compatibleEdges :=
          List.mem_append.mpr (Or.inr ((mem_symmetryDefects _ _ _).mpr ⟨hm, hf⟩))
        rw [hnil] at hmem
        simp at hmem

lemma validateEdgeRules_defects_missing (cfg : WFCConfig)
    (h0 : cfg.tileTypes ≠ []) (i : Nat) (d : EDirection) :
    (Defect.missingEdgeRule i d ∈ (validateEdgeRules cfg).2
      ↔ i < cfg.tileTypes.length
        ∧ containsKey cfg.compatibleEdges
            (edgeOfDir (cfg.tileTypes.getD i default) d) = false) := by
  unfold validateEdgeRules
  rw [if_neg (fun h => h0 (List.length_eq_zero.mp h))]
  dsimp only
  rw [List.mem_append]
  constructor
  · rintro (h | h)
    · exact (mem_catalogDefects _ _ _ _).mp h
    · obtain ⟨e1, e2, he⟩ := symmetryDefects_shape _ _ h
      exact absurd he (by simp)
  · intro hcond
    exact Or.inl ((mem_catalogDefects _ _ _ _).mpr hcond)

lemma validateEdgeRules_defects_asym (cfg : WFCConfig)
    (h0 : cfg.tileTypes ≠ []) (e1 e2 : ETileEdgeType) :
    (Defect.asymmetric e1 e2 ∈ (validateEdgeRules cfg).2
      ↔ ((e1, e2) ∈ cfg.compatibleEdges
        ∧ findEdge cfg.compatibleEdges e2 ≠ some e1)) := by
  unfold validateEdgeRules
  rw [if_neg (fun h => h0 (List.length_eq_zero.mp h))]
  dsimp only
  rw [List.mem_append]
  constructor
  · rintro (h | h)
    · obtain ⟨i, d, he⟩ := catalogDefects_shape _ _ _ h
      exact absurd he (by simp)
    · exact (mem_symmetryDefects _ _ _).mp h
  · intro hcond
    exact Or.inr ((mem_symmetryDefects _ _ _).mpr hcond)

lemma cellInv_upd (n : Nat) : ∀ (g : List FCell) (cx : Int) (a : List Nat),
    (∀ c ∈ g, cellInv n c) →
    ∀ c ∈ (updateCellPossibilities g cx a).1, cellInv n c := by
  apply upd_preserve (cellInv n)
  · intro c a hQ _ h1
    obtain ⟨x, hx⟩ := List.length_eq_one.mp h1
    have hxmem : x ∈ c.possibleStates := by
      have : x ∈ c.possibleStates.filter (fun s => a.contains s) := by
        rw [hx]
        simp
      exact List.mem_of_mem_filter this
    constructor
    · intro s hs
      simp only [hx] at hs
      simp at hs
      rw [hs]
      exact hQ.1 x hxmem
    · intro _
      refine ⟨x, ?_, ?_, hQ.1 x hxmem⟩
      · simpa using hx
      · dsimp only
        rw [hx]
        rfl
  · intro c a hQ hcol _ _
    constructor
    · intro s hs
      simp only [] at hs
      exact hQ.1 s (List.mem_of_mem_filter hs)
    · intro hcontra
      simp only [] at hcontra
      rw [hcol] at hcontra
      cases hcontra

lemma cellInv_collapse (n : Nat) : ∀ (c : FCell) (x : Nat), cellInv n c →
    c.bIsCollapsed = false → x ∈ c.possibleStates →
    cellInv n { c with
                  possibleStates := [x],
                  finalState := (x : Int),
                  bIsCollapsed := true } := by
  intro c x hQ _ hx
  constructor
  · intro s hs
    simp at hs
    rw [hs]
    exact hQ.1 x hx
  · intro _
    exact ⟨x, rfl, rfl, hQ.1 x hx⟩

lemma validate_true_tileTypes_ne (cfg : WFCConfig)
    (hv : (validateEdgeRules cfg).1 = true) : cfg.tileTypes.length ≠ 0 := by
  intro h0
  unfold validateEdgeRules at hv
  rw [if_pos h0] at hv
  simp at hv

lemma initGrid_cellOk (cfg : WFCConfig) (hn0 : cfg.tileTypes.length ≠ 0)
    (hn : cfg.tileTypes.length < 2147483647) :
    ∀ c ∈ initGrid cfg, cellOk c := by
  intro c hc
  have he := List.eq_of_mem_replicate hc
  rw [he]
  constructor
  · simp only [ne_eq, List.range_eq_nil]
    exact hn0
  · simpa using hn

/-- C1: `FindCellWithLowestEntropy` returns `-1` exactly when no
non-collapsed cell with a positive candidate count exists, and otherwise
returns the index of the non-collapsed cell with the smallest positive
candidate count, breaking ties by the lowest index in scan order (stated
for grids whose candidate counts are below the `int32` sentinel, as every
`TArray` length is). -/
theorem claim_C1_selectLowestEntropy (g : List FCell)
    (hsmall : ∀ j, j < g.length →
      (g.getD j default).possibleStates.length < 2147483647) :
    (findCellWithLowestEntropy g = -1
      ↔ ∀ j, j < g.length → ¬eligibleCell (g.getD j default))
    ∧ (∀ m : Nat, findCellWithLowestEntropy g = (m : Int) →
        m < g.length ∧ eligibleCell (g.getD m default)
        ∧ (∀ j, j < g.length → eligibleCell (g.getD j default) →
            (g.getD m default).possibleStates.length
              ≤ (g.getD j default).possibleStates.length)
        ∧ (∀ j, j < m → eligibleCell (g.getD j default) →
            (g.getD m default).possibleStates.length
              < (g.getD j default).possibleStates.length)) := by
  refine ⟨findCell_none_iff g hsmall, ?_⟩
  intro m hm
  by_cases hex : ∃ j, j < g.length ∧ eligibleCell (g.getD j default)
  · obtain ⟨j, hj, hej⟩ := hex
    obtain ⟨m2, hm2, heq, he2, hmin, htie⟩ := findCell_found g j hj hej hsmall
    have hmm : m2 = m := by
      rw [hm] at heq
      omega
    subst hmm
    exact ⟨hm2, he2, hmin, htie⟩
  · exfalso
    have hno : ∀ j, j < g.length → ¬eligibleCell (g.getD j default) :=
      fun j hj hej => hex ⟨j, hj, hej⟩
    have hneg := (findCell_none_iff g hsmall).mpr hno
    rw [hm] at hneg
    omega

/-- Concrete instantiation of C1 on a two-cell grid. -/
theorem claim_C1_witness :
    (∀ j, j < wfcGridA.length →
      (wfcGridA.getD j default).possibleStates.length < 2147483647)
    ∧ ((findCellWithLowestEntropy wfcGridA = -1
        ↔ ∀ j, j < wfcGridA.length → ¬eligibleCell (wfcGridA.getD j default))
      ∧ (∀ m : Nat, findCellWithLowestEntropy wfcGridA = (m : Int) →
          m < wfcGridA.length ∧ eligibleCell (wfcGridA.getD m default)
          ∧ (∀ j, j < wfcGridA.length → eligibleCell (wfcGridA.getD j default) →
              (wfcGridA.getD m default).possibleStates.length
                ≤ (wfcGridA.getD j default).possibleStates.length)
          ∧ (∀ j, j < m → eligibleCell (wfcGridA.getD j default) →
              (wfcGridA.getD m default).possibleStates.length
                < (wfcGridA.getD j default).possibleStates.length))) :=
  ⟨by decide, claim_C1_selectLowestEntropy wfcGridA (by decide)⟩

/-- C2: when propagation narrows a non-collapsed neighbor to exactly one
candidate, `UpdateCellPossibilities` deterministically collapses it to that
candidate: the collapsed flag becomes true, the final state is the single
candidate, and the candidate list becomes that singleton.  The function
takes no randomness source at all. -/
theorem claim_C2_forcedCollapse (g : List FCell) (a : List Nat) (i : Nat)
    (hi : i < g.length)
    (hnc : (g.getD i default).bIsCollapsed = false)
    (x : Nat)
    (hf : (g.getD i default).possibleStates.filter
      (fun s => a.contains s) = [x]) :
    ((updateCellPossibilities g (i : Int) a).1.getD i default).bIsCollapsed = true
    ∧ ((updateCellPossibilities g (i : Int) a).1.getD i default).finalState
        = (x : Int)
    ∧ ((updateCellPossibilities g (i : Int) a).1.getD i default).possibleStates
        = [x] := by
  unfold updateCellPossibilities
  simp only [Int.toNat_ofNat]
  rw [if_neg (by omega), if_neg (by rw [hnc]; simp), if_pos (by rw [hf]; simp),
    if_pos (by rw [hf]; rfl)]
  dsimp only
  rw [getD_set_self _ _ _ hi]
  rw [hf]
  exact ⟨rfl, rfl, rfl⟩

/-- Concrete instantiation of C2: the allowed list `[1]` narrows the first
cell of the fixture grid to the singleton `[1]` and collapses it. -/
theorem claim_C2_witness :
    (0 < wfcGridA.length)
    ∧ ((wfcGridA.getD 0 default).bIsCollapsed = false)
    ∧ ((wfcGridA.getD 0 default).possibleStates.filter
        (fun s => [1].contains s) = [1])
    ∧ (((updateCellPossibilities wfcGridA (0 : Int) [1]).1.getD 0
          default).bIsCollapsed = true
      ∧ ((updateCellPossibilities wfcGridA (0 : Int) [1]).1.getD 0
          default).finalState = ((1 : Nat) : Int)
      ∧ ((updateCellPossibilities wfcGridA (0 : Int) [1]).1.getD 0
          default).possibleStates = [1]) :=
  ⟨by decide, by decide, by decide,
    claim_C2_forcedCollapse wfcGridA [1] 0 (by decide) (by decide) 1 (by decide)⟩

/-- C3: when the intersection computed for a non-collapsed neighbor is
empty, `UpdateCellPossibilities` leaves the whole grid unchanged (candidate
list, collapsed flag, and final state of the neighbor included), reports no
change, and the neighbor block does not enqueue the neighbor — the whole
grid-and-queue pair is returned unchanged, so the contradiction is silently
ignored and the run proceeds. -/
theorem claim_C3_emptyIntersection (cfg : WFCConfig) (g : List FCell)
    (q : List Nat) (cur nIdx : Nat)
    (eC eN : FTileType → ETileEdgeType)
    (hn : nIdx < g.length)
    (hnc : (g.getD nIdx default).bIsCollapsed = false)
    (hempty : (g.getD nIdx default).possibleStates.filter
      (fun s => (collectAllowed cfg
        (g.getD cur default).possibleStates eC eN).contains s) = []) :
    processNeighbor cfg cur nIdx eC eN (g, q) = (g, q)
    ∧ (updateCellPossibilities g (nIdx : Int)
        (collectAllowed cfg (g.getD cur default).possibleStates eC eN)).2
      = false := by
  have hupd : updateCellPossibilities g (nIdx : Int)
      (collectAllowed cfg (g.getD cur default).possibleStates eC eN)
      = (g, false) := by
    unfold updateCellPossibilities
    simp only [Int.toNat_ofNat]
    rw [if_neg (by omega), if_neg (by rw [hnc]; simp),
      if_neg (by rw [hempty]; simp)]
    simp
  constructor
  · simp only [processNeighbor]
    rw [hupd]
    rfl
  · rw [hupd]

/-- Concrete instantiation of C3: with table `A → B` no tile is allowed next
to the single all-`A` tile, the intersection is empty, and the neighbor
block is a no-op. -/
theorem claim_C3_witness :
    (1 < ([{ possibleStates := [0], bIsCollapsed := false, finalState := -1 },
           { possibleStates := [0], bIsCollapsed := false, finalState := -1 }]
            : List FCell).length)
    ∧ (processNeighbor
        { gridWidth := 1, gridHeight := 2,
          tileTypes := [{ northEdge := ETileEdgeType.typeA,
                          eastEdge := ETileEdgeType.typeA,
                          southEdge := ETileEdgeType.typeA,
                          westEdge := ETileEdgeType.typeA }],
          compatibleEdges := [(ETileEdgeType.typeA, ETileEdgeType.typeB)] }
        0 1 FTileType.southEdge FTileType.northEdge
        ([{ possibleStates := [0], bIsCollapsed := false, finalState := -1 },
          { possibleStates := [0], bIsCollapsed := false, finalState := -1 }], [])
        = ([{ possibleStates := [0], bIsCollapsed := false, finalState := -1 },
            { possibleStates := [0], bIsCollapsed := false, finalState := -1 }], [])
      ∧ (updateCellPossibilities
          [{ possibleStates := [0], bIsCollapsed := false, finalState := -1 },
           { possibleStates := [0], bIsCollapsed := false, finalState := -1 }]
          ((1 : Nat) : Int)
          (collectAllowed
            { gridWidth := 1, gridHeight := 2,
              tileTypes := [{ northEdge := ETileEdgeType.typeA,
                              eastEdge := ETileEdgeType.typeA,
                              southEdge := ETileEdgeType.typeA,
                              westEdge := ETileEdgeType.typeA }],
              compatibleEdges := [(ETileEdgeType.typeA, ETileEdgeType.typeB)] }
            (([{ possibleStates := [0], bIsCollapsed := false, finalState := -1 },
               { possibleStates := [0], bIsCollapsed := false, finalState := -1 }]
                : List FCell).getD 0 default).possibleStates
            FTileType.southEdge FTileType.northEdge)).2 = false) :=
  ⟨by decide,
    claim_C3_emptyIntersection
      { gridWidth := 1, gridHeight := 2,
        tileTypes := [{ northEdge := ETileEdgeType.typeA,
                        eastEdge := ETileEdgeType.typeA,
                        southEdge := ETileEdgeType.typeA,
                        westEdge := ETileEdgeType.typeA }],
        compatibleEdges := [(ETileEdgeType.typeA, ETileEdgeType.typeB)] }
      [{ possibleStates := [0], bIsCollapsed := false, finalState := -1 },
       { possibleStates := [0], bIsCollapsed := false, finalState := -1 }]
      [] 0 1 FTileType.southEdge FTileType.northEdge
      (by decide) (by decide) (by decide)⟩

/-- C4: across any sequence of `PropagateConstraints` calls, every cell's
candidate list only shrinks (as a sublist, hence its size is monotonically
non-increasing), and a cell whose collapsed flag is true at the start of the
sequence is left completely untouched (candidate list, flag, and final
state). -/
theorem claim_C4_monotonic (cfg : WFCConfig) (g : List FCell) (l : List Int)
    (j : Nat) :
    ((l.foldl (propagateConstraints cfg) g).getD j default).possibleStates.Sublist
        (g.getD j default).possibleStates
    ∧ ((l.foldl (propagateConstraints cfg) g).getD j default).possibleStates.length
        ≤ (g.getD j default).possibleStates.length
    ∧ ((g.getD j default).bIsCollapsed = true →
        (l.foldl (propagateConstraints cfg) g).getD j default
          = g.getD j default) := by
  have h : CellwiseLe g (l.foldl (propagateConstraints cfg) g) := by
    induction l generalizing g with
    | nil => exact cellwiseLe_refl g
    | cons a rest ih =>
      rw [List.foldl_cons]
      exact cellwiseLe_trans (propagateConstraints_cellwise cfg g a)
        (ih (propagateConstraints cfg g a))
  exact ⟨(h j).1, (h j).1.length_le, (h j).2⟩

/-- Concrete instantiation of C4 on the fixture configuration and grid. -/
theorem claim_C4_witness :
    (([(0 : Int), 1].foldl (propagateConstraints wfcCfgA) wfcGridA).getD 0
        default).possibleStates.Sublist
      (wfcGridA.getD 0 default).possibleStates
    ∧ (([(0 : Int), 1].foldl (propagateConstraints wfcCfgA) wfcGridA).getD 0
        default).possibleStates.length
      ≤ (wfcGridA.getD 0 default).possibleStates.length
    ∧ ((wfcGridA.getD 0 default).bIsCollapsed = true →
        ([(0 : Int), 1].foldl (propagateConstraints wfcCfgA) wfcGridA).getD 0
          default = wfcGridA.getD 0 default) :=
  claim_C4_monotonic wfcCfgA wfcGridA [0, 1] 0

/-- C6: `CollapseCell` is a no-op on a collapsed cell or a cell with zero
candidates (grid and randomness counter unchanged); on any other in-range
cell it picks an element of the candidate list, replaces the list with that
singleton, records it as the final state, and sets the collapsed flag. -/
theorem claim_C6_collapse (rng : Nat → Nat) (g : List FCell) (k : Nat)
    (i : Nat) (hi : i < g.length) :
    (((g.getD i default).bIsCollapsed = true
        ∨ (g.getD i default).possibleStates.length = 0) →
      collapseCell rng g k (i : Int) = (g, k))
    ∧ ((g.getD i default).bIsCollapsed = false →
        0 < (g.getD i default).possibleStates.length →
        ∃ x, x ∈ (g.getD i default).possibleStates
          ∧ collapseCell rng g k (i : Int)
            = (g.set i { possibleStates := [x],
                         bIsCollapsed := true,
                         finalState := (x : Int) }, k + 1)) := by
  constructor
  · intro hcase
    unfold collapseCell
    simp only [Int.toNat_ofNat]
    rw [if_neg (by omega), if_pos hcase]
  · intro hnc hpos
    unfold collapseCell
    simp only [Int.toNat_ofNat]
    rw [if_neg (by omega),
      if_neg (by rw [hnc]; simp only [Bool.false_eq_true, false_or]; omega)]
    exact ⟨(g.getD i default).possibleStates.getD
        (rng k % (g.getD i default).possibleStates.length) 0,
      getD_mem_nat _ _ _ (Nat.mod_lt _ hpos), rfl⟩

/-- Concrete instantiation of C6 on the fixture grid. -/
theorem claim_C6_witness :
    (0 < wfcGridA.length)
    ∧ ((((wfcGridA.getD 0 default).bIsCollapsed = true
          ∨ (wfcGridA.getD 0 default).possibleStates.length = 0) →
        collapseCell (fun _ => 0) wfcGridA 0 ((0 : Nat) : Int) = (wfcGridA, 0))
      ∧ ((wfcGridA.getD 0 default).bIsCollapsed = false →
          0 < (wfcGridA.getD 0 default).possibleStates.length →
          ∃ x, x ∈ (wfcGridA.getD 0 default).possibleStates
            ∧ collapseCell (fun _ => 0) wfcGridA 0 ((0 : Nat) : Int)
              = (wfcGridA.set 0 { possibleStates := [x],
                                  bIsCollapsed := true,
                                  finalState := (x : Int) }, 0 + 1))) :=
  ⟨by decide, claim_C6_collapse (fun _ => 0) wfcGridA 0 0 (by decide)⟩

/-- C7 counterexample: with an empty catalog and an asymmetric table the
check fails and the asymmetry-defect condition holds, yet the asymmetry
defect is not reported — the check returned at the first defect (the empty
catalog) instead of collecting all defects present. -/
theorem claim_C7_counterexample :
    (validateEdgeRules
        { gridWidth := 1, gridHeight := 1, tileTypes := [],
          compatibleEdges := [(ETileEdgeType.typeA, ETileEdgeType.typeB)] }).1
      = false
    ∧ ((ETileEdgeType.typeA, ETileEdgeType.typeB)
          ∈ [(ETileEdgeType.typeA, ETileEdgeType.typeB)]
        ∧ findEdge [(ETileEdgeType.typeA, ETileEdgeType.typeB)]
            ETileEdgeType.typeB ≠ some ETileEdgeType.typeA)
    ∧ Defect.asymmetric ETileEdgeType.typeA ETileEdgeType.typeB
        ∉ (validateEdgeRules
        { gridWidth := 1, gridHeight := 1, tileTypes := [],
          compatibleEdges := [(ETileEdgeType.typeA, ETileEdgeType.typeB)] }).2 := by
  decide

/-- C7 (amended): `ValidateEdgeRules` fails exactly when the catalog is
empty, some tile's edge label is absent from the table, or some key/value
pair lacks the symmetric reverse mapping; and in every failing run with a
*non-empty catalog* all missing-edge and asymmetry defects present are
collected and reported together (when the catalog is empty the check
returns immediately reporting only the empty-catalog defect). -/
theorem claim_C7_validator (cfg : WFCConfig) :
    ((validateEdgeRules cfg).1 = false
      ↔ (cfg.tileTypes = []
        ∨ (∃ i d, i < cfg.tileTypes.length
            ∧ containsKey cfg.compatibleEdges
                (edgeOfDir (cfg.tileTypes.getD i default) d) = false)
        ∨ (∃ e1 e2, (e1, e2) ∈ cfg.compatibleEdges
            ∧ findEdge cfg.compatibleEdges e2 ≠ some e1)))
    ∧ (cfg.tileTypes ≠ [] →
        (∀ i d, (Defect.missingEdgeRule i d ∈ (validateEdgeRules cfg).2
          ↔ i < cfg.tileTypes.length
            ∧ containsKey cfg.compatibleEdges
                (edgeOfDir (cfg.tileTypes.getD i default) d) = false))
        ∧ (∀ e1 e2, (Defect.asymmetric e1 e2 ∈ (validateEdgeRules cfg).2
          ↔ ((e1, e2) ∈ cfg.compatibleEdges
            ∧ findEdge cfg.compatibleEdges e2 ≠ some e1)))) :=
  ⟨validateEdgeRules_false_iff cfg,
    fun h0 => ⟨fun i d => validateEdgeRules_defects_missing cfg h0 i d,
      fun e1 e2 => validateEdgeRules_defects_asym cfg h0 e1 e2⟩⟩

/-- Concrete instantiation of C7 on the fixture configuration. -/
theorem claim_C7_witness :
    ((validateEdgeRules wfcCfgA).1 = false
      ↔ (wfcCfgA.tileTypes = []
        ∨ (∃ i d, i < wfcCfgA.tileTypes.length
            ∧ containsKey wfcCfgA.compatibleEdges
                (edgeOfDir (wfcCfgA.tileTypes.getD i default) d) = false)
        ∨ (∃ e1 e2, (e1, e2) ∈ wfcCfgA.compatibleEdges
            ∧ findEdge wfcCfgA.compatibleEdges e2 ≠ some e1)))
    ∧ (wfcCfgA.tileTypes ≠ [] →
        (∀ i d, (Defect.missingEdgeRule i d ∈ (validateEdgeRules wfcCfgA).2
          ↔ i < wfcCfgA.tileTypes.length
            ∧ containsKey wfcCfgA.compatibleEdges
                (edgeOfDir (wfcCfgA.tileTypes.getD i default) d) = false))
        ∧ (∀ e1 e2, (Defect.asymmetric e1 e2 ∈ (validateEdgeRules wfcCfgA).2
          ↔ ((e1, e2) ∈ wfcCfgA.compatibleEdges
            ∧ findEdge wfcCfgA.compatibleEdges e2 ≠ some e1)))) :=
  claim_C7_validator wfcCfgA

/-- C8: when validation fails, `GenerateGrid` returns before initializing
the grid, selecting, collapsing, or propagating anything: the grid member is
unchanged, zero loop iterations are executed, no warning is emitted, and the
randomness source is never consulted. -/
theorem claim_C8_noSolveOnInvalid (cfg : WFCConfig) (rng : Nat → Nat)
    (prevGrid : List FCell) (k : Nat)
    (hfail : (validateEdgeRules cfg).1 = false) :
    generateGrid cfg rng prevGrid k
      = { grid := prevGrid, iterations := 0, warned := false,
          rngCounter := k } := by
  unfold generateGrid
  rw [if_pos hfail]

/-- Concrete instantiation of C8 on an asymmetric-table configuration with
an empty catalog. -/
theorem claim_C8_witness :
    ((validateEdgeRules
        { gridWidth := 2, gridHeight := 2, tileTypes := [],
          compatibleEdges := [(ETileEdgeType.typeA, ETileEdgeType.typeB)] }).1
      = false)
    ∧ (generateGrid
        { gridWidth := 2, gridHeight := 2, tileTypes := [],
          compatibleEdges := [(ETileEdgeType.typeA, ETileEdgeType.typeB)] }
        (fun _ => 0) wfcGridA 7
      = { grid := wfcGridA, iterations := 0, warned := false,
          rngCounter := 7 }) :=
  ⟨by decide,
    claim_C8_noSolveOnInvalid
      { gridWidth := 2, gridHeight := 2, tileTypes := [],
        compatibleEdges := [(ETileEdgeType.typeA, ETileEdgeType.typeB)] }
      (fun _ => 0) wfcGridA 7 (by decide)⟩

/-- C9: two `GenerateGrid` runs from the same configuration, the same
randomness stream (the seed of the modelled engine source), the same
starting randomness counter, and the same previous grid produce identical
results — in particular identical candidate lists, collapsed flags, and
final states for every cell. -/
theorem claim_C9_determinism (cfg : WFCConfig) (rng1 rng2 : Nat → Nat)
    (prevGrid : List FCell) (k : Nat)
    (hseed : ∀ n, rng1 n = rng2 n) :
    generateGrid cfg rng1 prevGrid k = generateGrid cfg rng2 prevGrid k
    ∧ ∀ j : Nat,
      ((generateGrid cfg rng1 prevGrid k).grid.getD j default).possibleStates
        = ((generateGrid cfg rng2 prevGrid k).grid.getD j default).possibleStates
      ∧ ((generateGrid cfg rng1 prevGrid k).grid.getD j default).bIsCollapsed
        = ((generateGrid cfg rng2 prevGrid k).grid.getD j default).bIsCollapsed
      ∧ ((generateGrid cfg rng1 prevGrid k).grid.getD j default).finalState
        = ((generateGrid cfg rng2 prevGrid k).grid.getD j default).finalState := by
  have he : rng1 = rng2 := funext hseed
  subst he
  exact ⟨rfl, fun j => ⟨rfl, rfl, rfl⟩⟩

/-- Concrete instantiation of C9 on the fixture configuration. -/
theorem claim_C9_witness :
    generateGrid wfcCfgA (fun _ => 0) [] 0
        = generateGrid wfcCfgA (fun _ => 0) [] 0
    ∧ ∀ j : Nat,
      ((generateGrid wfcCfgA (fun _ => 0) [] 0).grid.getD j default).possibleStates
        = ((generateGrid wfcCfgA (fun _ => 0) [] 0).grid.getD j default).possibleStates
      ∧ ((generateGrid wfcCfgA (fun _ => 0) [] 0).grid.getD j default).bIsCollapsed
        = ((generateGrid wfcCfgA (fun _ => 0) [] 0).grid.getD j default).bIsCollapsed
      ∧ ((generateGrid wfcCfgA (fun _ => 0) [] 0).grid.getD j default).finalState
        = ((generateGrid wfcCfgA (fun _ => 0) [] 0).grid.getD j default).finalState :=
  claim_C9_determinism wfcCfgA (fun _ => 0) (fun _ => 0) [] 0 (fun _ => rfl)

/-- C10: after initialization every cell's candidates are valid tile
indices, and both `CollapseCell` and `PropagateConstraints` preserve the
invariant that candidates are valid tile indices and that a collapsed
cell's candidate list is exactly the singleton of its (valid) final
state. -/
theorem claim_C10_invariant (cfg : WFCConfig) (rng : Nat → Nat) :
    (∀ c ∈ initGrid cfg, cellInv cfg.tileTypes.length c)
    ∧ (∀ (g : List FCell) (k : Nat) (ci : Int),
        (∀ c ∈ g, cellInv cfg.tileTypes.length c) →
        ∀ c ∈ (collapseCell rng g k ci).1, cellInv cfg.tileTypes.length c)
    ∧ (∀ (g : List FCell) (ci : Int),
        (∀ c ∈ g, cellInv cfg.tileTypes.length c) →
        ∀ c ∈ propagateConstraints cfg g ci, cellInv cfg.tileTypes.length c) := by
  refine ⟨?_, ?_, ?_⟩
  · intro c hc
    have he := List.eq_of_mem_replicate hc
    rw [he]
    constructor
    · intro s hs
      simpa using hs
    · intro hcontra
      simp at hcontra
  · intro g k ci hg
    exact collapse_preserve _ (cellInv_collapse cfg.tileTypes.length)
      rng g k ci hg
  · intro g ci hg
    exact propagateConstraints_preserve _ cfg
      (cellInv_upd cfg.tileTypes.length) g ci hg

/-- Concrete instantiation of C10 on the fixture configuration. -/
theorem claim_C10_witness :
    (∀ c ∈ initGrid wfcCfgA, cellInv wfcCfgA.tileTypes.length c)
    ∧ (∀ (g : List FCell) (k : Nat) (ci : Int),
        (∀ c ∈ g, cellInv wfcCfgA.tileTypes.length c) →
        ∀ c ∈ (collapseCell (fun _ => 0) g k ci).1,
          cellInv wfcCfgA.tileTypes.length c)
    ∧ (∀ (g : List FCell) (ci : Int),
        (∀ c ∈ g, cellInv wfcCfgA.tileTypes.length c) →
        ∀ c ∈ propagateConstraints wfcCfgA g ci,
          cellInv wfcCfgA.tileTypes.length c) :=
  claim_C10_invariant wfcCfgA (fun _ => 0)

/-- C5: under a valid configuration with positive dimensions, the solve loop
of `GenerateGrid` runs at most `width*height*10` iterations; if the final
grid is not fully collapsed the max-iteration warning was emitted (and the
partially collapsed grid is still returned as the result); and a single
propagation worklist run needs no external cap: any fuel above
`totalPoss g + q.length` lets the fuel-indexed loop complete with the
cap-free loop's result. -/
theorem claim_C5_termination (cfg : WFCConfig) (rng : Nat → Nat)
    (prevGrid : List FCell) (k : Nat)
    (_hw : 0 < cfg.gridWidth) (_hh : 0 < cfg.gridHeight)
    (hn : cfg.tileTypes.length < 2147483647)
    (hv : (validateEdgeRules cfg).1 = true) :
    (generateGrid cfg rng prevGrid k).iterations
        ≤ cfg.gridWidth * cfg.gridHeight * 10
    ∧ (isGridFullyCollapsed (generateGrid cfg rng prevGrid k).grid = false →
        (generateGrid cfg rng prevGrid k).warned = true)
    ∧ (∀ (g : List FCell) (q : List Nat) (fuel : Nat),
        totalPoss g + q.length < fuel →
        propagateLoopFuel cfg fuel g q = some (propagateLoop cfg g q)) := by
  have hok : ∀ c ∈ initGrid cfg, cellOk c :=
    initGrid_cellOk cfg (validate_true_tileTypes_ne cfg hv) hn
  unfold generateGrid
  rw [if_neg (by rw [hv]; simp)]
  dsimp only
  refine ⟨?_, ?_, ?_⟩
  · exact solveLoop_iter_le cfg rng (cfg.gridWidth * cfg.gridHeight * 10)
      (initGrid cfg) k 0 (cfg.gridWidth * cfg.gridHeight * 10)
      (by omega) (by omega)
  · intro hnf
    have hexit := solveLoop_exit cfg rng (cfg.gridWidth * cfg.gridHeight * 10)
      (initGrid cfg) k 0 (cfg.gridWidth * cfg.gridHeight * 10) (by omega) hok
    rcases hexit with h | h
    · rw [hnf] at h
      simp at h
    · exact decide_eq_true h
  · intro g2 q fuel hfuel
    exact propagateLoopFuel_eq cfg fuel g2 q hfuel

/-- Concrete instantiation of C5 on the fixture configuration. -/
theorem claim_C5_witness :
    ((0 < wfcCfgA.gridWidth) ∧ (0 < wfcCfgA.gridHeight)
      ∧ wfcCfgA.tileTypes.length < 2147483647
      ∧ (validateEdgeRules wfcCfgA).1 = true)
    ∧ ((generateGrid wfcCfgA (fun _ => 0) [] 0).iterations
        ≤ wfcCfgA.gridWidth * wfcCfgA.gridHeight * 10
      ∧ (isGridFullyCollapsed (generateGrid wfcCfgA (fun _ => 0) [] 0).grid
            = false →
          (generateGrid wfcCfgA (fun _ => 0) [] 0).warned = true)
      ∧ (∀ (g : List FCell) (q : List Nat) (fuel : Nat),
          totalPoss g + q.length < fuel →
          propagateLoopFuel wfcCfgA fuel g q
            = some (propagateLoop wfcCfgA g q))) :=
  ⟨⟨by decide, by decide, by decide, by decide⟩,
    claim_C5_termination wfcCfgA (fun _ => 0) [] 0
      (by decide) (by decide) (by decide) (by decide)⟩
